import Mathlib

/-!
Verification of the project-nexus state-derivation and persistence pipeline.

Shallow embedding of `src/js/App.js` (state, derivation, commands, storage
helpers).  JS strings are modelled as `List Char`; JS numbers appearing in
coin records as `Int`; the stable `Array.prototype.sort` as `List.mergeSort`;
side effects (render-sink calls, storage writes, toasts) as an explicit
effect trace returned alongside the updated state.  The Data Source
(`fetchCoins` in API.js) and the deserializer (`JSON.parse`) are external
collaborators, modelled as parameters.
-/

/-- Model of a JavaScript string: a list of UTF-16-ish characters. -/
abbrev JStr := List Char

/-- Model of `String.prototype.toLowerCase` (character-wise case folding). -/
def toLowerStr (s : JStr) : JStr := s.map Char.toLower

/-- Model of `String.prototype.trim`: drop whitespace at both ends. -/
def trimStr (s : JStr) : JStr :=
  (((s.dropWhile Char.isWhitespace).reverse.dropWhile Char.isWhitespace)).reverse

/-- CoinData record, as normalized by API.js `normalizeCoin`: every field
present, numeric fields modelled as `Int`. -/
structure Coin where
  id : JStr
  symbol : JStr
  name : JStr
  image : JStr
  current_price : Int
  market_cap : Int
  market_cap_rank : Int
  total_volume : Int
  high_24h : Int
  low_24h : Int
  price_change_percentage_24h : Int
  circulating_supply : Int
deriving DecidableEq, Repr

/-- The central `State` object of App.js. -/
structure State where
  allCoins : List Coin
  favorites : List JStr
  searchQuery : JStr
  sortBy : JStr
  sortOrder : JStr
  theme : JStr
  watchlistOnly : Bool
  isLoading : Bool
deriving DecidableEq, Repr

/-- Model of `name.localeCompare(other)`: lexicographic comparison by
character code, returning a negative, zero or positive number. -/
def localeCompare : JStr → JStr → Int
  | [], [] => 0
  | [], _ :: _ => -1
  | _ :: _, [] => 1
  | a :: as, b :: bs =>
    if a.toNat = b.toNat then localeCompare as bs
    else if a.toNat < b.toNat then -1 else 1

/-- Numeric comparator of the entries of the `comparators` table in
`getSorter(field, order)` of App.js: direction is `+1` exactly when
`order === 'asc'`, and each of the five own keys selects its entry; any
other `field` argument is given the `market_cap` entry here — the value the
`??` fallback produces when the bracket read yields undefined.  The bracket
read itself (`comparators[field] ?? comparators.market_cap`) walks the JS
prototype chain and is modelled separately by `lookupSorter`: for a field
naming an inherited `Object.prototype` member, the program's selected value
is that member and not any entry of this table. -/
def getSorter (field order : JStr) (a b : Coin) : Int :=
  let direction : Int := if order = "asc".toList then 1 else -1
  if field = "market_cap".toList then direction * (a.market_cap - b.market_cap)
  else if field = "price".toList then direction * (a.current_price - b.current_price)
  else if field = "change".toList then
    direction * (a.price_change_percentage_24h - b.price_change_percentage_24h)
  else if field = "name".toList then direction * localeCompare a.name b.name
  else if field = "volume".toList then direction * (a.total_volume - b.total_volume)
  else direction * (a.market_cap - b.market_cap)

/-- The five recognized sort fields of the comparator table. -/
def validSortFields : List JStr :=
  ["market_cap".toList, "price".toList, "change".toList, "name".toList, "volume".toList]

/-- Search predicate of `deriveVisibleCoins` step 1, applied to one coin for
the precomputed query `q = State.searchQuery.toLowerCase().trim()`:
`if (!query) return true; return name.toLowerCase().includes(q) || symbol.toLowerCase().includes(q)`. -/
def coinMatchesQuery (q : JStr) (c : Coin) : Bool :=
  if q.isEmpty then true
  else decide (q <:+: toLowerStr c.name) || decide (q <:+: toLowerStr c.symbol)

/-- Step 1 of `deriveVisibleCoins`: filter `allCoins` by the search query. -/
def searchedCoins (S : State) : List Coin :=
  S.allCoins.filter (coinMatchesQuery (trimStr (toLowerStr S.searchQuery)))

/-- Step 2 of `deriveVisibleCoins`: keep only favorites when `watchlistOnly`. -/
def watchlistedCoins (S : State) : List Coin :=
  if S.watchlistOnly then
    (searchedCoins S).filter (fun c => S.favorites.contains c.id)
  else searchedCoins S

/-- Boolean order used to model `[...watchlisted].sort(getSorter(...))`:
JS sorts so that pairs with a non-positive comparator value stay in order,
and the sort is stable (ES2019). -/
def sorterLE (field order : JStr) (a b : Coin) : Bool :=
  decide (getSorter field order a b ≤ 0)

/-- Step 3 of `deriveVisibleCoins`: stable sort of the filtered list by the
selected comparator (`List.mergeSort` models the stable `Array.prototype.sort`). -/
def deriveVisibleCoins (S : State) : List Coin :=
  (watchlistedCoins S).mergeSort (sorterLE S.sortBy S.sortOrder)

/-- Property names every plain object literal inherits from
`Object.prototype` (the standard methods plus the Annex-B accessors),
visible to a JS bracket read that walks the prototype chain. -/
def objectPrototypeMembers : List JStr :=
  [("constructor").toList, ("hasOwnProperty").toList,
   ("isPrototypeOf").toList, ("propertyIsEnumerable").toList,
   ("toLocaleString").toList, ("toString").toList, ("valueOf").toList,
   ("__defineGetter__").toList, ("__defineSetter__").toList,
   ("__lookupGetter__").toList, ("__lookupSetter__").toList,
   ("__proto__").toList]

/-- Outcome of the property read `comparators[field] ?? comparators.market_cap`
in `getSorter` (App.js line 130): either an own entry of the comparator
table (the resolved key is recorded; for a field with neither an own nor an
inherited entry the read yields undefined and `??` selects `market_cap`),
or a member inherited from `Object.prototype` — such a member is truthy, so
`??` never fires and the inherited member itself is the selected value. -/
inductive SorterLookup where
  | table (key : JStr)
  | inheritedMember (name : JStr)
deriving DecidableEq, Repr

/-- The comparator-selection read of `getSorter`: own table keys first, then
the prototype chain, then the `??` fallback to `market_cap`. -/
def lookupSorter (field : JStr) : SorterLookup :=
  if field ∈ validSortFields then .table field
  else if field ∈ objectPrototypeMembers then .inheritedMember field
  else .table (("market_cap").toList)

/-- Fallible derivation: step 3 runs `[...watchlisted].sort(selected)` with
the value selected by `lookupSorter`.  A table entry is a genuine comparator
(`getSorter key` is exactly its numeric behaviour) and the stable sort
returns.  An inherited `Object.prototype` member is not a comparator:
`__proto__` resolves to the non-callable `Object.prototype` object and
`Array.prototype.sort` throws a TypeError outright; `toString` and
`constructor` are callable but every comparison result coerces to NaN,
which the sort treats as ±0, so the stable sort returns the input order
unchanged; each remaining member throws a TypeError on its first
invocation (`ToObject(undefined)`), which happens exactly when the sort has
at least two elements to compare. -/
def deriveVisibleCoinsChecked (S : State) : Option (List Coin) :=
  match lookupSorter S.sortBy with
  | .table key => some ((watchlistedCoins S).mergeSort (sorterLE key S.sortOrder))
  | .inheritedMember name =>
    if name = ("__proto__").toList then none
    else if name = ("toString").toList || name = ("constructor").toList then
      some (watchlistedCoins S)
    else if (watchlistedCoins S).length ≤ 1 then some (watchlistedCoins S)
    else none

/-- Model of a deserialized JSON value, as produced by `JSON.parse`.
Arrays are restricted to arrays of strings, the only shape the app persists. -/
inductive JsValue where
  | jstr (s : JStr)
  | jnum (n : Int)
  | jbool (b : Bool)
  | jarr (xs : List JStr)
  | jnull
deriving DecidableEq, Repr

/-- Observable calls from App.js into its collaborators (UI.js render sink,
localStorage writes, the Data Source), recorded as an effect trace. -/
inductive Effect where
  | setRefreshSpinner (active : Bool)
  | renderSkeletons (n : Nat)
  | fetchCoins
  | renderCoins (visible : List Coin) (favorites : List JStr)
  | updateStats (total showing favs : Nat)
  | showError (msg : JStr)
  | showToast (msg : JStr) (kind : JStr)
  | showWatchlistEmpty
  | save (key : String) (value : JsValue)
  | applyTheme (t : JStr)
deriving DecidableEq, Repr

/-- True iff the trace contains a `renderCoins` call: `deriveVisibleCoins` is
invoked exactly at the `renderView` call sites, whose output is handed to
`renderCoins`, so this records whether derivation ran. -/
def runsDerive (es : List Effect) : Bool :=
  es.any fun e =>
    match e with
    | .renderCoins _ _ => true
    | _ => false

/-- Effects of `renderView()`: derive the visible coins, hand them to
`renderCoins`, then `updateStats(allCoins.length, visible.length, favorites.length)`. -/
def renderViewEffects (S : State) : List Effect :=
  [Effect.renderCoins (deriveVisibleCoins S) S.favorites,
   Effect.updateStats S.allCoins.length (deriveVisibleCoins S).length S.favorites.length]

/-- Command `toggleFavorite(coinId)` of App.js: resolve the coin name, add or
remove the id (remove uses `.filter`, add appends), toast, persist the list,
re-render, and finally show the empty-watchlist presentation when the
watchlist view is active and the favorites just became empty. -/
def toggleFavorite (S : State) (coinId : JStr) : State × List Effect :=
  let coin := S.allCoins.find? fun c => c.id = coinId
  let coinName := (coin.map Coin.name).getD coinId
  let isNowFav := S.favorites.contains coinId
  let S1 : State :=
    if isNowFav then
      { S with favorites := S.favorites.filter fun i => decide ¬(i = coinId) }
    else
      { S with favorites := S.favorites ++ [coinId] }
  let note : Effect :=
    if isNowFav then
      .showToast (coinName ++ (" removed from Watchlist").toList) ("info").toList
    else
      .showToast (coinName ++ (" added to Watchlist ★").toList) ("success").toList
  let es : List Effect :=
    [note, .save "nexus_favorites" (.jarr S1.favorites)]
      ++ renderViewEffects S1
      ++ (if S1.watchlistOnly && S1.favorites.isEmpty then [Effect.showWatchlistEmpty] else [])
  (S1, es)

/-- The `watchlistToggle` click handler of App.js: flip `watchlistOnly`;
when now active with no favorites, short-circuit to the empty-watchlist
presentation plus `updateStats(total, 0, 0)` and return without `renderView`;
otherwise `renderView`.  (`aria-pressed` and CSS-class updates on the button
are pure DOM styling and are not part of the effect trace.) -/
def watchlistToggleClick (S : State) : State × List Effect :=
  let S1 : State := { S with watchlistOnly := !S.watchlistOnly }
  if S1.watchlistOnly && S1.favorites.isEmpty then
    (S1, [Effect.showWatchlistEmpty, Effect.updateStats S1.allCoins.length 0 0])
  else
    (S1, renderViewEffects S1)

/-- Command `loadData()` of App.js.  The Data Source outcome (`fetchCoins`
resolving with coins, or rejecting with an error whose optional `.message`
is modelled as `Option JStr`) is passed as a parameter; the `Effect.fetchCoins`
trace entry marks the actual call.  Mirrors the guard, the try branch, the
catch branch, and the `finally` cleanup. -/
def loadData (S : State) (result : Except (Option JStr) (List Coin)) :
    State × List Effect :=
  if S.isLoading then (S, [])
  else
    let S1 : State := { S with isLoading := true }
    let pre : List Effect := [.setRefreshSpinner true, .renderSkeletons 20, .fetchCoins]
    match result with
    | .ok coins =>
      let S2 : State := { S1 with allCoins := coins }
      let es := pre ++ renderViewEffects S2
        ++ [Effect.showToast ((toString coins.length).toList ++ (" coins loaded successfully").toList)
              ("success").toList]
      ({ S2 with isLoading := false }, es ++ [Effect.setRefreshSpinner false])
    | .error e =>
      let es := pre
        ++ [Effect.showError (e.getD ("An unknown error occurred.").toList),
            Effect.showToast ("Failed to load data").toList ("danger").toList]
      ({ S1 with isLoading := false }, es ++ [Effect.setRefreshSpinner false])

/-- Storage helper `loadFromStorage(key, defaultValue)` of App.js: read the
raw item (`none` models a missing key), deserialize it (`none` models a
`JSON.parse` exception, caught by the surrounding `try`), and fall back to
`defaultValue` in either failure case.  `getItem` and `parse` model the
external `localStorage.getItem` and `JSON.parse` collaborators. -/
def loadFromStorage {α : Type} (getItem : String → Option String)
    (parse : String → Option α) (key : String) (defaultValue : α) : α :=
  match getItem key with
  | some raw => (parse raw).getD defaultValue
  | none => defaultValue

/-- Preference fields of `State` as hydrated at startup: each field is an
independent `loadFromStorage` read with the documented default
(`State` initializer, App.js lines 39-63). -/
structure HydratedPrefs where
  favorites : JsValue
  sortBy : JsValue
  sortOrder : JsValue
  theme : JsValue
deriving DecidableEq, Repr

/-- Startup hydration of the persisted preference fields from the Preference
Store, with the documented defaults. -/
def hydratePrefs (getItem : String → Option String)
    (parse : String → Option JsValue) : HydratedPrefs :=
  { favorites := loadFromStorage getItem parse "nexus_favorites" (.jarr [])
    sortBy := loadFromStorage getItem parse "nexus_sort_by" (.jstr ("market_cap").toList)
    sortOrder := loadFromStorage getItem parse "nexus_sort_order" (.jstr ("desc").toList)
    theme := loadFromStorage getItem parse "nexus_theme" (.jstr ("dark").toList) }

/-- The combined search-and-watchlist keep-predicate, written from the claim:
a record is kept iff the trimmed, case-folded `searchQuery` is empty or is a
substring of the case-folded display name or of the case-folded symbol, and,
when `watchlistOnly` is true, the record identifier is in `favorites`. -/
def claimKeep (S : State) (c : Coin) : Bool :=
  let q := trimStr (toLowerStr S.searchQuery)
  (q.isEmpty || decide (q <:+: toLowerStr c.name) || decide (q <:+: toLowerStr c.symbol))
    && (!S.watchlistOnly || S.favorites.contains c.id)

/-- The field part of `getSorter`, before the direction multiplier. -/
def fieldCmp (field : JStr) (a b : Coin) : Int :=
  if field = "market_cap".toList then a.market_cap - b.market_cap
  else if field = "price".toList then a.current_price - b.current_price
  else if field = "change".toList then
    a.price_change_percentage_24h - b.price_change_percentage_24h
  else if field = "name".toList then localeCompare a.name b.name
  else if field = "volume".toList then a.total_volume - b.total_volume
  else a.market_cap - b.market_cap

theorem localeCompare_nil_le (u : JStr) : localeCompare [] u ≤ 0 := by
  cases u <;> simp [localeCompare]

theorem localeCompare_neg (s t : JStr) : localeCompare t s = -localeCompare s t := by
  induction s generalizing t with
  | nil => cases t <;> simp [localeCompare]
  | cons a as ih =>
    cases t with
    | nil => simp [localeCompare]
    | cons b bs =>
      simp only [localeCompare]
      by_cases hab : a.toNat = b.toNat
      · rw [if_pos hab, if_pos hab.symm, ih bs]
      · have hba : ¬ b.toNat = a.toNat := fun e => hab e.symm
        rw [if_neg hab, if_neg hba]
        rcases Nat.lt_trichotomy a.toNat b.toNat with hlt | heq | hgt
        · rw [if_pos hlt, if_neg (Nat.lt_asymm hlt)]; omega
        · exact absurd heq hab
        · rw [if_neg (Nat.lt_asymm hgt), if_pos hgt]; try omega

theorem localeCompare_le_trans (s t u : JStr)
    (h1 : localeCompare s t ≤ 0) (h2 : localeCompare t u ≤ 0) :
    localeCompare s u ≤ 0 := by
  induction s generalizing t u with
  | nil => exact localeCompare_nil_le u
  | cons a as ih =>
    cases t with
    | nil => simp only [localeCompare] at h1; omega
    | cons b bs =>
      cases u with
      | nil => simp only [localeCompare] at h2; omega
      | cons c cs =>
        simp only [localeCompare] at h1 h2 ⊢
        by_cases hab : a.toNat = b.toNat
        · rw [if_pos hab] at h1
          by_cases hbc : b.toNat = c.toNat
          · rw [if_pos hbc] at h2
            rw [if_pos (hab.trans hbc)]
            exact ih bs cs h1 h2
          · rw [if_neg hbc] at h2
            have hbc' : b.toNat < c.toNat := by
              by_contra hh; rw [if_neg hh] at h2; omega
            have hac : a.toNat < c.toNat := hab ▸ hbc'
            rw [if_neg (by omega : ¬ a.toNat = c.toNat), if_pos hac]; omega
        · rw [if_neg hab] at h1
          have hab' : a.toNat < b.toNat := by
            by_contra hh; rw [if_neg hh] at h1; omega
          by_cases hbc : b.toNat = c.toNat
          · have hac : a.toNat < c.toNat := hbc ▸ hab'
            rw [if_neg (by omega : ¬ a.toNat = c.toNat), if_pos hac]; omega
          · rw [if_neg hbc] at h2
            have hbc' : b.toNat < c.toNat := by
              by_contra hh; rw [if_neg hh] at h2; omega
            have hac : a.toNat < c.toNat := Nat.lt_trans hab' hbc'
            rw [if_neg (by omega : ¬ a.toNat = c.toNat), if_pos hac]; omega

theorem getSorter_eq_dir_mul (field order : JStr) (a b : Coin) :
    getSorter field order a b
      = (if order = "asc".toList then (1 : Int) else -1) * fieldCmp field a b := by
  by_cases h1 : field = "market_cap".toList
  · simp [getSorter, fieldCmp, h1]
  · by_cases h2 : field = "price".toList
    · simp [getSorter, fieldCmp, h1, h2]
    · by_cases h3 : field = "change".toList
      · simp [getSorter, fieldCmp, h1, h2, h3]
      · by_cases h4 : field = "name".toList
        · simp [getSorter, fieldCmp, h1, h2, h3, h4]
        · by_cases h5 : field = "volume".toList
          · simp [getSorter, fieldCmp, h1, h2, h3, h4, h5]
          · simp [getSorter, fieldCmp, h1, h2, h3, h4, h5]

theorem fieldCmp_neg (field : JStr) (a b : Coin) :
    fieldCmp field b a = -fieldCmp field a b := by
  by_cases g1 : field = "market_cap".toList
  · simp only [fieldCmp, if_pos g1]; omega
  · by_cases g2 : field = "price".toList
    · simp only [fieldCmp, if_neg g1, if_pos g2]; omega
    · by_cases g3 : field = "change".toList
      · simp only [fieldCmp, if_neg g1, if_neg g2, if_pos g3]; omega
      · by_cases g4 : field = "name".toList
        · simp only [fieldCmp, if_neg g1, if_neg g2, if_neg g3, if_pos g4]
          exact localeCompare_neg a.name b.name
        · by_cases g5 : field = "volume".toList
          · simp only [fieldCmp, if_neg g1, if_neg g2, if_neg g3, if_neg g4,
              if_pos g5]; omega
          · simp only [fieldCmp, if_neg g1, if_neg g2, if_neg g3, if_neg g4,
              if_neg g5]; omega

theorem fieldCmp_le_trans (field : JStr) (a b c : Coin)
    (h1 : fieldCmp field a b ≤ 0) (h2 : fieldCmp field b c ≤ 0) :
    fieldCmp field a c ≤ 0 := by
  by_cases g1 : field = "market_cap".toList
  · simp only [fieldCmp, if_pos g1] at h1 h2 ⊢; omega
  · by_cases g2 : field = "price".toList
    · simp only [fieldCmp, if_neg g1, if_pos g2] at h1 h2 ⊢; omega
    · by_cases g3 : field = "change".toList
      · simp only [fieldCmp, if_neg g1, if_neg g2, if_pos g3] at h1 h2 ⊢; omega
      · by_cases g4 : field = "name".toList
        · simp only [fieldCmp, if_neg g1, if_neg g2, if_neg g3, if_pos g4] at h1 h2 ⊢
          exact localeCompare_le_trans a.name b.name c.name h1 h2
        · by_cases g5 : field = "volume".toList
          · simp only [fieldCmp, if_neg g1, if_neg g2, if_neg g3, if_neg g4,
              if_pos g5] at h1 h2 ⊢; omega
          · simp only [fieldCmp, if_neg g1, if_neg g2, if_neg g3, if_neg g4,
              if_neg g5] at h1 h2 ⊢; omega

theorem getSorter_neg (field order : JStr) (a b : Coin) :
    getSorter field order b a = -getSorter field order a b := by
  rw [getSorter_eq_dir_mul, getSorter_eq_dir_mul, fieldCmp_neg]
  ring

theorem sorterLE_trans (field order : JStr) (a b c : Coin)
    (h1 : sorterLE field order a b = true) (h2 : sorterLE field order b c = true) :
    sorterLE field order a c = true := by
  simp only [sorterLE, decide_eq_true_eq] at h1 h2 ⊢
  rw [getSorter_eq_dir_mul] at h1 h2 ⊢
  by_cases ho : order = "asc".toList
  · rw [if_pos ho, one_mul] at h1 h2 ⊢
    exact fieldCmp_le_trans field a b c h1 h2
  · rw [if_neg ho] at h1 h2 ⊢
    have h1' : fieldCmp field b a ≤ 0 := by rw [fieldCmp_neg]; omega
    have h2' : fieldCmp field c b ≤ 0 := by rw [fieldCmp_neg]; omega
    have := fieldCmp_le_trans field c b a h2' h1'
    have hca : fieldCmp field a c = -fieldCmp field c a := by rw [fieldCmp_neg]
    omega

theorem sorterLE_total (field order : JStr) (a b : Coin) :
    (sorterLE field order a b || sorterLE field order b a) = true := by
  simp only [sorterLE, Bool.or_eq_true, decide_eq_true_eq]
  have := getSorter_neg field order a b
  omega

theorem pairwise_filter_rel {α : Type} (p : α → Bool) (R : α → α → Prop) (l : List α)
    (h : ∀ a b, p a = true → p b = true → R a b) : (l.filter p).Pairwise R := by
  induction l with
  | nil => simp
  | cons x xs ih =>
    by_cases hx : p x = true
    · rw [List.filter_cons_of_pos hx]
      exact List.Pairwise.cons (fun b hb => h x b hx (List.of_mem_filter hb)) ih
    · rw [List.filter_cons_of_neg (by simpa using hx)]
      exact ih

theorem getSorter_zero_symm_trans (field order : JStr) (c a b : Coin)
    (h1 : getSorter field order c a = 0) (h2 : getSorter field order c b = 0) :
    sorterLE field order a b = true := by
  rw [getSorter_eq_dir_mul] at h1 h2
  have hfa : fieldCmp field c a = 0 := by
    rcases mul_eq_zero.mp h1 with h | h
    · revert h; split <;> omega
    · exact h
  have hfb : fieldCmp field c b = 0 := by
    rcases mul_eq_zero.mp h2 with h | h
    · revert h; split <;> omega
    · exact h
  have hac : fieldCmp field a c ≤ 0 := by rw [fieldCmp_neg]; omega
  have hab : fieldCmp field a b ≤ 0 := fieldCmp_le_trans field a c b hac (by omega)
  have hbc : fieldCmp field b c ≤ 0 := by rw [fieldCmp_neg]; omega
  have hba : fieldCmp field b a ≤ 0 := fieldCmp_le_trans field b c a hbc (by omega)
  have hnab : fieldCmp field a b = -fieldCmp field b a := by rw [fieldCmp_neg]
  simp only [sorterLE, decide_eq_true_eq]
  rw [getSorter_eq_dir_mul]
  split <;> omega

theorem watchlistedCoins_eq_filter (S : State) :
    watchlistedCoins S = S.allCoins.filter (claimKeep S) := by
  unfold watchlistedCoins searchedCoins
  cases hw : S.watchlistOnly
  · simp only [Bool.false_eq_true, if_false]
    apply List.filter_congr
    intro c _
    simp only [claimKeep, coinMatchesQuery, hw, Bool.not_false, Bool.true_or,
      Bool.and_true]
    cases hq : (trimStr (toLowerStr S.searchQuery)).isEmpty <;> simp [hq]
  · simp only [if_true]
    rw [List.filter_filter]
    apply List.filter_congr
    intro c _
    simp only [claimKeep, coinMatchesQuery, hw, Bool.not_true, Bool.false_or]
    cases hq : (trimStr (toLowerStr S.searchQuery)).isEmpty <;>
      simp [hq, Bool.and_comm]

theorem mergeSort_sorterLE_filter_stable (field order : JStr) (l : List Coin)
    (c : Coin) :
    (l.mergeSort (sorterLE field order)).filter
        (fun d => decide (getSorter field order c d = 0))
      = l.filter (fun d => decide (getSorter field order c d = 0)) := by
  have hpair : (l.filter
      (fun d => decide (getSorter field order c d = 0))).Pairwise
      (fun a b => sorterLE field order a b = true) := by
    apply pairwise_filter_rel
    intro a b hpa hpb
    exact getSorter_zero_symm_trans field order c a b
      (of_decide_eq_true hpa) (of_decide_eq_true hpb)
  have hsub : List.Sublist
      (l.filter (fun d => decide (getSorter field order c d = 0))) l :=
    List.filter_sublist _
  have h1 : List.Sublist
      (l.filter (fun d => decide (getSorter field order c d = 0)))
      (l.mergeSort (sorterLE field order)) :=
    List.sublist_mergeSort (sorterLE_trans field order)
      (sorterLE_total field order) hpair hsub
  have h2 := h1.filter (fun d => decide (getSorter field order c d = 0))
  rw [List.filter_filter] at h2
  have h3 : l.filter
      (fun d => decide (getSorter field order c d = 0)
          && decide (getSorter field order c d = 0))
      = l.filter (fun d => decide (getSorter field order c d = 0)) := by
    apply List.filter_congr
    intro a _
    cases hpa : decide (getSorter field order c a = 0) <;> simp [hpa]
  rw [h3] at h2
  have h4 : List.Perm
      ((l.mergeSort (sorterLE field order)).filter
        (fun d => decide (getSorter field order c d = 0)))
      (l.filter (fun d => decide (getSorter field order c d = 0))) :=
    (List.mergeSort_perm l _).filter _
  exact (h2.eq_of_length h4.length_eq.symm).symm

/-- C8: `toggleFavorite` is self-inverse on the favorites set — applying it
twice with the same coin id yields a favorites collection equal, as a set of
identifiers, to the favorites held before the first call. -/
theorem toggleFavorite_self_inverse (S : State) (x y : JStr) :
    (y ∈ (toggleFavorite (toggleFavorite S x).1 x).1.favorites) ↔
      y ∈ S.favorites := by
  have key : ∀ (T : State), (toggleFavorite T x).1.favorites =
      if x ∈ T.favorites then T.favorites.filter (fun i => decide ¬(i = x))
      else T.favorites ++ [x] := by
    intro T
    by_cases hc : x ∈ T.favorites <;> simp [toggleFavorite, List.contains, hc]
  rw [key, key]
  by_cases hx : x ∈ S.favorites
  · rw [if_pos hx]
    have hx1 : ¬ x ∈ S.favorites.filter (fun i => decide ¬(i = x)) := by simp
    rw [if_neg hx1]
    by_cases hxy : y = x
    · simp [hxy, hx]
    · simp [hxy]
  · rw [if_neg hx]
    have hx1 : x ∈ S.favorites ++ [x] := by simp
    rw [if_pos hx1]
    by_cases hxy : y = x
    · simp [hxy, hx]
    · simp [hxy]

/-- Sample coin used to instantiate witness statements. -/
def demoCoin : Coin :=
  { id := ("btc").toList, symbol := ("BTC").toList, name := ("Bitcoin").toList,
    image := [], current_price := 50, market_cap := 1000, market_cap_rank := 1,
    total_volume := 300, high_24h := 60, low_24h := 40,
    price_change_percentage_24h := 2, circulating_supply := 19 }

/-- Sample state (fresh defaults with one loaded coin) for witness statements. -/
def baseState : State :=
  { allCoins := [demoCoin], favorites := [], searchQuery := [],
    sortBy := ("market_cap").toList, sortOrder := ("desc").toList,
    theme := ("dark").toList, watchlistOnly := false, isLoading := false }

/-- C6: invoking `loadData` while `isLoading` is true is a no-op — the guard
returns immediately, so no Data Source call happens (the effect trace is
empty, in particular free of `Effect.fetchCoins`) and every field of the
state is unchanged, whatever the pending fetch would have returned. -/
theorem loadData_noop_when_loading (S : State)
    (result : Except (Option JStr) (List Coin)) (h : S.isLoading = true) :
    loadData S result = (S, []) := by
  simp [loadData, h]

theorem loadData_noop_when_loading_witness :
    ({ baseState with isLoading := true } : State).isLoading = true ∧
      loadData { baseState with isLoading := true } (.ok [])
        = ({ baseState with isLoading := true }, []) :=
  ⟨rfl, loadData_noop_when_loading { baseState with isLoading := true } (.ok []) rfl⟩

/-- C5: when `loadData` actually runs (the `isLoading` guard passes) and the
Data Source fails, `allCoins` is left exactly as before, the failure's
user-facing message is surfaced via `showError` together with a failure
toast, and `isLoading` is cleared at the end regardless of success or
failure of the given fetch outcome. -/
theorem loadData_failure_graceful (S : State) (e : Option JStr)
    (result : Except (Option JStr) (List Coin)) (h : S.isLoading = false) :
    (loadData S (.error e)).1.allCoins = S.allCoins ∧
    Effect.showError (e.getD ("An unknown error occurred.").toList)
      ∈ (loadData S (.error e)).2 ∧
    Effect.showToast ("Failed to load data").toList ("danger").toList
      ∈ (loadData S (.error e)).2 ∧
    (loadData S result).1.isLoading = false := by
  refine ⟨?_, ?_, ?_, ?_⟩
  · simp [loadData, h]
  · simp [loadData, h]
  · simp [loadData, h]
  · cases result <;> simp [loadData, h]

theorem loadData_failure_graceful_witness :
    baseState.isLoading = false ∧
    ((loadData baseState (.error none)).1.allCoins = baseState.allCoins ∧
    Effect.showError (Option.getD none ("An unknown error occurred.").toList)
      ∈ (loadData baseState (.error none)).2 ∧
    Effect.showToast ("Failed to load data").toList ("danger").toList
      ∈ (loadData baseState (.error none)).2 ∧
    (loadData baseState (.ok [])).1.isLoading = false) :=
  ⟨rfl, loadData_failure_graceful baseState none (.ok []) rfl⟩

/-- C10: every `sortOrder` value other than the exact string `asc` — `desc`
included, but also any corrupt or unknown value — yields direction −1, so the
comparator coincides with the `desc` comparator on all inputs; only `asc`
itself gives the ascending comparator. -/
theorem getSorter_nonasc_sorts_descending (field order : JStr)
    (a b : Coin) (h : ¬ order = ("asc").toList) :
    getSorter field order a b = getSorter field ("desc").toList a b := by
  have hd : ¬ (("desc").toList : JStr) = ("asc").toList := by decide
  simp only [getSorter, if_neg h, if_neg hd]

theorem getSorter_nonasc_sorts_descending_witness :
    ¬ (("weird").toList : JStr) = ("asc").toList ∧
      getSorter ("price").toList ("weird").toList demoCoin demoCoin
        = getSorter ("price").toList ("desc").toList demoCoin demoCoin :=
  ⟨by decide,
    getSorter_nonasc_sorts_descending ("price").toList ("weird").toList
      demoCoin demoCoin (by decide)⟩

/-- C9: `loadFromStorage` returns the stored deserialized value when the key
is present and deserialization succeeds, and returns `defaultValue` whenever
the key is missing or deserialization fails; being a total function of its
inputs, it never raises. -/
theorem loadFromStorage_read_policy {α : Type} (getItem : String → Option String)
    (parse : String → Option α) (key : String) (d : α) :
    (getItem key = none → loadFromStorage getItem parse key d = d) ∧
    (∀ raw, getItem key = some raw → parse raw = none →
        loadFromStorage getItem parse key d = d) ∧
    (∀ raw v, getItem key = some raw → parse raw = some v →
        loadFromStorage getItem parse key d = v) := by
  refine ⟨?_, ?_, ?_⟩
  · intro h1
    simp [loadFromStorage, h1]
  · intro raw h1 h2
    simp [loadFromStorage, h1, h2]
  · intro raw v h1 h2
    simp [loadFromStorage, h1, h2]

/-- Storage stub whose only present key holds an unparseable raw value. -/
def stubGetItem : String → Option String :=
  fun k => if k = "nexus_theme" then some "corrupt" else none

/-- Deserializer stub that fails on every input, as `JSON.parse` does on the
raw value served by `stubGetItem`. -/
def stubParseFail : String → Option JsValue := fun _ => none

/-- Deserializer stub that succeeds with a fixed value. -/
def stubParseOk : String → Option JsValue := fun _ => some (.jnum 7)

theorem loadFromStorage_read_policy_witness :
    loadFromStorage stubGetItem stubParseFail "nexus_theme"
        (JsValue.jstr ("dark").toList) = JsValue.jstr ("dark").toList ∧
    loadFromStorage stubGetItem stubParseFail "missing"
        (JsValue.jstr ("dark").toList) = JsValue.jstr ("dark").toList ∧
    loadFromStorage stubGetItem stubParseOk "nexus_theme"
        (JsValue.jstr ("dark").toList) = JsValue.jnum 7 :=
  ⟨(loadFromStorage_read_policy stubGetItem stubParseFail "nexus_theme"
      (JsValue.jstr ("dark").toList)).2.1 "corrupt" (by decide) rfl,
   (loadFromStorage_read_policy stubGetItem stubParseFail "missing"
      (JsValue.jstr ("dark").toList)).1 (by decide),
   (loadFromStorage_read_policy stubGetItem stubParseOk "nexus_theme"
      (JsValue.jstr ("dark").toList)).2.2 "corrupt" (JsValue.jnum 7)
      (by decide) rfl⟩

/-- Storage contents exhibiting a corrupt-but-parseable persisted sort field:
the `nexus_sort_by` entry holds the raw text `"banana"` (a valid JSON string). -/
def corruptGetItem : String → Option String :=
  fun k => if k = "nexus_sort_by" then some "\"banana\"" else none

/-- Deserializer behaving as `JSON.parse` does on the raw values served by
`corruptGetItem`: the quoted text parses to the string value `banana`;
everything else fails. -/
def corruptParse : String → Option JsValue :=
  fun raw => if raw = "\"banana\"" then some (.jstr ("banana").toList) else none

/-- C2 counterexample: hydrating from a Preference Store whose persisted
`nexus_sort_by` entry holds the valid JSON string `"banana"` leaves
`State.sortBy` equal to `banana`, which is not one of
`market_cap, price, change, name, volume` — `loadFromStorage` falls back to
the default only when the key is missing or deserialization throws, and
never validates a successfully parsed value against the enum. -/
theorem hydratePrefs_corrupt_counterexample :
    (hydratePrefs corruptGetItem corruptParse).sortBy
        = JsValue.jstr (("banana").toList) ∧
      ¬ (hydratePrefs corruptGetItem corruptParse).sortBy
          ∈ validSortFields.map JsValue.jstr := by
  constructor
  · decide
  · decide

/-- C2 (amended): after startup hydration, whenever every value the
Preference Store returns fails to deserialize (and likewise when the keys
are missing), `sortBy`, `sortOrder` and `theme` equal their documented
defaults `market_cap`, `desc`, `dark` (and `favorites` its default `[]`);
a value that deserializes successfully is stored as-is, unvalidated, so a
parseable out-of-enum value lands in the State field (see the
counterexample), with validity enforced only at point of use. -/
theorem hydratePrefs_defaults_on_unparseable (getItem : String → Option String)
    (parse : String → Option JsValue)
    (h : ∀ k raw, getItem k = some raw → parse raw = none) :
    (hydratePrefs getItem parse).sortBy = JsValue.jstr (("market_cap").toList) ∧
    (hydratePrefs getItem parse).sortOrder = JsValue.jstr (("desc").toList) ∧
    (hydratePrefs getItem parse).theme = JsValue.jstr (("dark").toList) ∧
    (hydratePrefs getItem parse).favorites = JsValue.jarr [] := by
  have hget : ∀ (k : String) (d : JsValue), loadFromStorage getItem parse k d = d := by
    intro k d
    cases hk : getItem k with
    | none => simp [loadFromStorage, hk]
    | some raw => simp [loadFromStorage, hk, h k raw hk]
  exact ⟨hget _ _, hget _ _, hget _ _, hget _ _⟩

/-- Storage stub where every key is present but holds unparseable text. -/
def garbageGetItem : String → Option String := fun _ => some "garbage"

theorem hydratePrefs_defaults_on_unparseable_witness :
    (hydratePrefs garbageGetItem stubParseFail).sortBy
        = JsValue.jstr (("market_cap").toList) ∧
    (hydratePrefs garbageGetItem stubParseFail).sortOrder
        = JsValue.jstr (("desc").toList) ∧
    (hydratePrefs garbageGetItem stubParseFail).theme
        = JsValue.jstr (("dark").toList) ∧
    (hydratePrefs garbageGetItem stubParseFail).favorites = JsValue.jarr [] :=
  hydratePrefs_defaults_on_unparseable garbageGetItem stubParseFail
    (fun _ _ _ => rfl)

/-- State in which the watchlist filter is active and exactly one favorite
(the loaded coin) remains. -/
def lastFavState : State :=
  { baseState with watchlistOnly := true, favorites := [("btc").toList] }

/-- C4 counterexample: removing the last favorite via `toggleFavorite` while
the watchlist filter is active does invoke the empty-watchlist presentation,
but only after `renderView()` has already run — the trace contains a
`renderCoins` call, i.e. the derivation function IS run on this path,
refuting the claim that it is not. -/
theorem toggleFavorite_empty_watchlist_counterexample :
    lastFavState.watchlistOnly = true ∧
    (toggleFavorite lastFavState ("btc").toList).1.favorites = [] ∧
    Effect.showWatchlistEmpty ∈ (toggleFavorite lastFavState ("btc").toList).2 ∧
    runsDerive (toggleFavorite lastFavState ("btc").toList).2 = true := by
  refine ⟨rfl, by decide, by decide, by decide⟩

/-- C4 (amended): when `toggleWatchlistOnly` turns the filter on with an
empty favorites set, the empty-watchlist presentation is invoked and the
derivation function is not run (the handler short-circuits before
`renderView`); when `toggleFavorite` removes the last favorite while the
filter is active, the empty-watchlist presentation is invoked as well, but
after a full re-render — the derivation function IS run on that path. -/
theorem emptyWatchlist_presentation_paths (S : State) (T : State) (x : JStr)
    (h1 : S.watchlistOnly = false) (h2 : S.favorites = [])
    (h3 : T.watchlistOnly = true)
    (h4 : (toggleFavorite T x).1.favorites = []) :
    (Effect.showWatchlistEmpty ∈ (watchlistToggleClick S).2 ∧
      runsDerive (watchlistToggleClick S).2 = false) ∧
    (Effect.showWatchlistEmpty ∈ (toggleFavorite T x).2 ∧
      runsDerive (toggleFavorite T x).2 = true) := by
  constructor
  · constructor
    · simp [watchlistToggleClick, h1, h2]
    · simp [watchlistToggleClick, h1, h2, runsDerive]
  · by_cases hc : x ∈ T.favorites
    · have h5 : (T.favorites.filter fun i => decide ¬(i = x)) = [] := by
        simpa [toggleFavorite, List.contains, hc] using h4
      constructor
      · simp [toggleFavorite, List.contains, hc, h3, renderViewEffects]
        intro a ha
        by_contra hne
        have hmem : a ∈ T.favorites.filter (fun i => decide ¬(i = x)) :=
          List.mem_filter.mpr ⟨ha, by simpa using hne⟩
        rw [h5] at hmem
        exact absurd hmem (List.not_mem_nil a)
      · simp [toggleFavorite, List.contains, hc, runsDerive, renderViewEffects]
    · exfalso
      simp [toggleFavorite, List.contains, hc] at h4

theorem emptyWatchlist_presentation_paths_witness :
    baseState.watchlistOnly = false ∧ baseState.favorites = [] ∧
    lastFavState.watchlistOnly = true ∧
    (toggleFavorite lastFavState ("btc").toList).1.favorites = [] ∧
    ((Effect.showWatchlistEmpty ∈ (watchlistToggleClick baseState).2 ∧
        runsDerive (watchlistToggleClick baseState).2 = false) ∧
      (Effect.showWatchlistEmpty ∈ (toggleFavorite lastFavState ("btc").toList).2 ∧
        runsDerive (toggleFavorite lastFavState ("btc").toList).2 = true)) :=
  ⟨rfl, rfl, rfl, by decide,
    emptyWatchlist_presentation_paths baseState lastFavState ("btc").toList
      rfl rfl rfl (by decide)⟩

/-- State with a corrupt sort field naming the inherited `__proto__`
accessor of `Object.prototype` (reachable: hydration stores any parseable
persisted string into `sortBy` unvalidated). -/
def protoState : State := { baseState with sortBy := ("__proto__").toList }

/-- C1 counterexample: at a state whose `sortBy` is `__proto__`, the
comparator lookup walks the prototype chain and returns the non-callable
`Object.prototype` itself, so `Array.prototype.sort` throws a TypeError and
derivation returns no records at all — even though a qualifying record
exists — refuting the claim's guarantee for every state. -/
theorem deriveVisibleCoins_proto_counterexample :
    deriveVisibleCoinsChecked protoState = none ∧
    protoState.allCoins.filter (claimKeep protoState) = [demoCoin] := by
  constructor
  · decide
  · decide

/-- C1 (amended): for every state whose `sortBy` resolves through the
comparator lookup to a genuine table entry — an own key, or the
`market_cap` fallback when the field names neither an own key nor an
inherited `Object.prototype` member — derivation returns, and its output
consists of exactly the records of `allCoins` that pass the filters, each
with its source multiplicity (no record invented or duplicated); at
`sortBy = "__proto__"` the sort throws instead and nothing is returned. -/
theorem deriveVisibleCoinsChecked_perm_filter (S : State) (key : JStr)
    (out : List Coin) (h : lookupSorter S.sortBy = SorterLookup.table key) :
    deriveVisibleCoinsChecked S ≠ none ∧
    (deriveVisibleCoinsChecked S = some out →
      out.Perm (S.allCoins.filter (claimKeep S))) := by
  have hD : deriveVisibleCoinsChecked S
      = some ((watchlistedCoins S).mergeSort (sorterLE key S.sortOrder)) := by
    unfold deriveVisibleCoinsChecked
    rw [h]
  constructor
  · rw [hD]
    exact Option.some_ne_none _
  · intro hsome
    rw [hD] at hsome
    have hout : out = (watchlistedCoins S).mergeSort (sorterLE key S.sortOrder) :=
      (Option.some.inj hsome).symm
    rw [hout, ← watchlistedCoins_eq_filter]
    exact List.mergeSort_perm _ _

theorem deriveVisibleCoinsChecked_perm_filter_witness :
    lookupSorter baseState.sortBy = SorterLookup.table (("market_cap").toList) ∧
    (deriveVisibleCoinsChecked baseState ≠ none ∧
      (deriveVisibleCoinsChecked baseState = some [demoCoin] →
        List.Perm [demoCoin] (baseState.allCoins.filter (claimKeep baseState)))) :=
  ⟨by decide,
    deriveVisibleCoinsChecked_perm_filter baseState (("market_cap").toList)
      [demoCoin] (by decide)⟩

/-- C3 counterexample: the claim asserts the stability property at every
state, but at `sortBy = "__proto__"` the program's sort throws on the
non-callable inherited member — derivation returns no ordered output whose
equal-key classes could preserve the filtered order, even though filtered
records exist. -/
theorem deriveVisibleCoins_stability_proto_counterexample :
    deriveVisibleCoinsChecked protoState = none ∧
    watchlistedCoins protoState ≠ [] := by
  constructor
  · decide
  · decide

/-- C3 (amended): the sort step is stable at every state whose `sortBy`
resolves through the comparator lookup to a table entry: restricted to any
class of records whose comparator value against a fixed record `c` is zero
under the resolved key, for either sort order, the returned derivation
output coincides with the filtered list `watchlistedCoins S` (the order
`allCoins` induces after filtering); at `sortBy = "__proto__"` the sort
throws and no output is returned. -/
theorem deriveVisibleCoinsChecked_sort_stable (S : State) (key : JStr)
    (c : Coin) (out : List Coin)
    (h1 : lookupSorter S.sortBy = SorterLookup.table key)
    (h2 : deriveVisibleCoinsChecked S = some out) :
    out.filter (fun d => decide (getSorter key S.sortOrder c d = 0))
      = (watchlistedCoins S).filter
          (fun d => decide (getSorter key S.sortOrder c d = 0)) := by
  have hD : deriveVisibleCoinsChecked S
      = some ((watchlistedCoins S).mergeSort (sorterLE key S.sortOrder)) := by
    unfold deriveVisibleCoinsChecked
    rw [h1]
  rw [hD] at h2
  have hout : out = (watchlistedCoins S).mergeSort (sorterLE key S.sortOrder) :=
    (Option.some.inj h2).symm
  rw [hout]
  exact mergeSort_sorterLE_filter_stable key S.sortOrder (watchlistedCoins S) c

theorem deriveVisibleCoinsChecked_sort_stable_witness :
    lookupSorter baseState.sortBy = SorterLookup.table (("market_cap").toList) ∧
    deriveVisibleCoinsChecked baseState = some [demoCoin] ∧
    [demoCoin].filter
        (fun d => decide
          (getSorter (("market_cap").toList) baseState.sortOrder demoCoin d = 0))
      = (watchlistedCoins baseState).filter
          (fun d => decide
            (getSorter (("market_cap").toList) baseState.sortOrder demoCoin d = 0)) := by
  have h1 : lookupSorter baseState.sortBy
      = SorterLookup.table (("market_cap").toList) := by decide
  have hw : watchlistedCoins baseState = [demoCoin] := by decide
  have h2 : deriveVisibleCoinsChecked baseState = some [demoCoin] := by
    unfold deriveVisibleCoinsChecked
    rw [h1, hw]
    show some ([demoCoin].mergeSort
      (sorterLE (("market_cap").toList) baseState.sortOrder)) = some [demoCoin]
    rw [List.mergeSort_singleton]
  exact ⟨h1, h2,
    deriveVisibleCoinsChecked_sort_stable baseState (("market_cap").toList)
      demoCoin [demoCoin] h1 h2⟩

/-- C7 counterexample: `toString` is outside the sort-field enum, yet the
bracket read resolves it to the inherited `Object.prototype.toString`
member — which is truthy, so `??` never fires — and not to the `market_cap`
table comparator, refuting the claim that every out-of-enum field selects
the `market_cap` comparator. -/
theorem lookupSorter_toString_counterexample :
    lookupSorter (("toString").toList)
        = SorterLookup.inheritedMember (("toString").toList) ∧
    lookupSorter (("market_cap").toList)
        = SorterLookup.table (("market_cap").toList) ∧
    ¬ (("toString").toList ∈ validSortFields) ∧
    SorterLookup.inheritedMember (("toString").toList)
        ≠ SorterLookup.table (("market_cap").toList) := by
  refine ⟨by decide, by decide, by decide, by decide⟩

/-- C7 (amended): comparator selection is a total function that never
errors, and for a `sortField` outside the enum it yields the `market_cap`
comparator exactly when the field also names no inherited
`Object.prototype` member — the bracket read then gives undefined, `??`
falls back, and the selected comparator agrees pointwise with
`market_cap`'s for that order; a field naming an inherited member resolves
to that member instead, never to the `market_cap` comparator. -/
theorem lookupSorter_unknown_field (field order : JStr) (a b : Coin)
    (h : ¬ field ∈ validSortFields) :
    (field ∈ objectPrototypeMembers →
      lookupSorter field = SorterLookup.inheritedMember field) ∧
    (¬ field ∈ objectPrototypeMembers →
      lookupSorter field = SorterLookup.table (("market_cap").toList) ∧
      getSorter field order a b
        = getSorter (("market_cap").toList) order a b) := by
  constructor
  · intro hm
    simp [lookupSorter, h, hm]
  · intro hm
    constructor
    · simp [lookupSorter, h, hm]
    · simp only [validSortFields, List.mem_cons, List.not_mem_nil, or_false,
        not_or] at h
      obtain ⟨n1, n2, n3, n4, n5⟩ := h
      simp only [getSorter]
      rw [if_neg n1, if_neg n2, if_neg n3, if_neg n4, if_neg n5]
      simp

theorem lookupSorter_unknown_field_witness :
    (lookupSorter (("banana").toList)
        = SorterLookup.table (("market_cap").toList) ∧
      getSorter (("banana").toList) (("asc").toList) demoCoin demoCoin
        = getSorter (("market_cap").toList) (("asc").toList) demoCoin demoCoin) ∧
    lookupSorter (("toString").toList)
        = SorterLookup.inheritedMember (("toString").toList) :=
  ⟨(lookupSorter_unknown_field (("banana").toList) (("asc").toList)
      demoCoin demoCoin (by decide)).2 (by decide),
   (lookupSorter_unknown_field (("toString").toList) (("asc").toList)
      demoCoin demoCoin (by decide)).1 (by decide)⟩
